import Mathlib

/-!
Verification of the Feed Aggregation & Publication Engine of
regg92s-hub/market-daily-report against its natural-language specification.

The Python sources under scripts/ are shallowly embedded:
strings are modelled as List Char (ASCII-faithful), parsed JSON values as
the PyVal inductive mirroring what Python's json module produces, and the
regex substitutions used by postprocess_report.py - whose patterns are
literal-prefix, lazy-dot, literal-suffix shaped - as executable scanning
functions with an explicit fuel argument so that the kernel can evaluate
them on concrete inputs.
-/

set_option maxRecDepth 100000

namespace MDR

/-! ## String scanning toolkit (models Python str.find / re.sub behaviour) -/

/-- Boolean prefix test on character lists (models Python startswith). -/
def isPref : List Char → List Char → Bool
  | [], _ => true
  | _ :: _, [] => false
  | a :: as_, b :: bs => a == b && isPref as_ bs

/-- First occurrence of `pat` in `s`: returns the part strictly before the
match and the part strictly after it (models Python str.find / str.split
with one split). -/
def splitFirst (pat : List Char) : List Char → Option (List Char × List Char)
  | [] => if pat.isEmpty then some ([], []) else none
  | c :: rest =>
    if isPref pat (c :: rest) then some ([], (c :: rest).drop pat.length)
    else match splitFirst pat rest with
      | some (b, a) => some (c :: b, a)
      | none => none

/-- Does `pat` occur in `s` (models Python `pat in s`). -/
def containsSub (pat s : List Char) : Bool :=
  (splitFirst pat s).isSome

/-- Replace every non-overlapping occurrence of `pat` by `repl`, scanning
left to right and never rescanning replaced text (models Python
str.replace). Fuel-driven so that the kernel can evaluate it; the wrapper
supplies enough fuel. -/
def replaceAllF (pat repl : List Char) : Nat → List Char → List Char
  | 0, s => s
  | fuel + 1, s =>
    match splitFirst pat s with
    | none => s
    | some (b, a) => b ++ repl ++ replaceAllF pat repl fuel a

/-- Python str.replace(pat, repl) for nonempty `pat`. -/
def replaceAll (pat repl s : List Char) : List Char :=
  replaceAllF pat repl s.length s

/-- Python re.sub on a pattern of the shape `openP(.*?)closeP` (literal
open marker, lazy dot-all gap, literal close marker) with a literal
replacement: each leftmost-shortest match from the first open marker to
the first close marker after it is replaced by `repl`. -/
def subLazyF (openP closeP repl : List Char) : Nat → List Char → List Char
  | 0, s => s
  | fuel + 1, s =>
    match splitFirst openP s with
    | none => s
    | some (b, a1) =>
      match splitFirst closeP a1 with
      | none => s
      | some (_, a2) => b ++ repl ++ subLazyF openP closeP repl fuel a2

/-- Wrapper for `subLazyF` with enough fuel. -/
def subLazy (openP closeP repl s : List Char) : List Char :=
  subLazyF openP closeP repl s.length s

/-- Number of non-overlapping matches of `pat`, scanning left to right. -/
def countSubF (pat : List Char) : Nat → List Char → Nat
  | 0, _ => 0
  | fuel + 1, s =>
    match splitFirst pat s with
    | none => 0
    | some (_, a) => 1 + countSubF pat fuel a

/-- Number of non-overlapping occurrences of `pat` in `s`. -/
def countSub (pat s : List Char) : Nat :=
  countSubF pat s.length s

/-- No occurrence of `pat` starts inside `a` when `a` is followed by `b`. -/
def NoOccStart (pat a b : List Char) : Prop :=
  ∀ a1 a2 : List Char, a = a1 ++ a2 → a2 ≠ [] → ¬ (isPref pat (a2 ++ b) = true)

/-- Decidable sufficient condition: no nonempty suffix of `a` is
prefix-compatible with `pat`, so no occurrence of `pat` can start inside
`a` no matter what follows. -/
def safeChunk (pat a : List Char) : Bool :=
  (List.range a.length).all fun i =>
    !(isPref (a.drop i) pat) && !(isPref pat (a.drop i))

/-! ## The Python data model

`PyVal` mirrors the values Python's json module produces when parsing the
input documents (index.json, filelist.json, news.json): None, bool, int,
float (including the non-finite NaN/Infinity floats that json.loads
accepts by default), str, list and dict (insertion-ordered key/value
pairs). -/

/-- A Python float: either a finite value (represented exactly as a
rational) or one of the non-finite values NaN, +Infinity, -Infinity. -/
inductive PyFloat where
  | finite (q : ℚ)
  | nan
  | inf
  | ninf
deriving DecidableEq, Repr

/-- A parsed-JSON Python value. -/
inductive PyVal where
  | none
  | bool (b : Bool)
  | int (n : Int)
  | float (x : PyFloat)
  | str (s : String)
  | list (xs : List PyVal)
  | dict (kvs : List (String × PyVal))
deriving Repr

/-- Python truthiness of a `PyVal` (used by the `x or y` idiom). -/
def truthy : PyVal → Bool
  | .none => false
  | .bool b => b
  | .int n => n != 0
  | .float (.finite q) => q != 0
  | .float _ => true
  | .str s => s != ""
  | .list xs => !xs.isEmpty
  | .dict kvs => !kvs.isEmpty

/-- Python `a or b`. -/
def pyOr (a b : PyVal) : PyVal := if truthy a then a else b

/-- First value bound to key `k` in an insertion-ordered dict. -/
def lookupKey (kvs : List (String × PyVal)) (k : String) : Option PyVal :=
  (kvs.find? (fun p => p.1 == k)).map (fun p => p.2)

/-- Python `d.get(k)` on a value known to be a dict (default None). -/
def dictGet0 (kvs : List (String × PyVal)) (k : String) : PyVal :=
  (lookupKey kvs k).getD .none

/-- View a value as a dict; `none` models the AttributeError Python raises
when `.get` is called on a non-dict receiver. -/
def asDict : PyVal → Option (List (String × PyVal))
  | .dict kvs => some kvs
  | _ => Option.none

/-! ## export_for_chatgpt.py -/

/-- `_get(d, *ks, default)` from export_for_chatgpt.py: nested dict
lookup that returns `default` as soon as the current value is not a dict
or the key is missing; it never raises. -/
def pyGetPath (d : PyVal) (ks : List String) (default : PyVal) : PyVal :=
  match ks with
  | [] => d
  | k :: rest =>
    match d with
    | .dict kvs =>
      match lookupKey kvs k with
      | some v => pyGetPath v rest default
      | Option.none => default
    | _ => default

/-- `_num(x)` from export_for_chatgpt.py: `x if isinstance(x, (int,
float)) else None`. Note that Python bools are instances of int, and that
non-finite floats pass the isinstance test unchanged. -/
def pyNumFn : PyVal → PyVal
  | .bool b => .bool b
  | .int n => .int n
  | .float x => .float x
  | _ => .none

/-- `_metrics_from_index(idx, ticker)` from export_for_chatgpt.py.
The result is `Option`-wrapped: `Option.none` models the AttributeError
Python raises when one of the `.get` receivers (`a`, `frames.get(...)`
results) is a truthy non-dict; the receiver checks are hoisted before the
output dict literal, which does not change whether an exception occurs. -/
def metrics_from_index (idx : PyVal) (ticker : String) : Option PyVal := do
  let a := pyOr (pyGetPath idx ["summary", "assets", ticker] (.dict [])) (.dict [])
  let frames := pyOr (pyGetPath a ["frames"] (.dict [])) (.dict [])
  let fkvs ← asDict frames
  let d := pyOr (dictGet0 fkvs "daily") (.dict [])
  let w := pyOr (dictGet0 fkvs "weekly") (.dict [])
  let m := pyOr (dictGet0 fkvs "monthly") (.dict [])
  let h := pyOr (dictGet0 fkvs "hourly") (.dict [])
  let akvs ← asDict a
  let dkvs ← asDict d
  let wkvs ← asDict w
  let mkvs ← asDict m
  let hkvs ← asDict h
  pure (.dict [
    ("last", pyNumFn (dictGet0 dkvs "last")),
    ("is_52w_high", dictGet0 akvs "is_52w_high"),
    ("is_52w_low", dictGet0 akvs "is_52w_low"),
    ("52w_high", pyNumFn (dictGet0 akvs "52w_high")),
    ("52w_low", pyNumFn (dictGet0 akvs "52w_low")),
    ("dist_to_36WMA", pyNumFn (dictGet0 akvs "dist_to_36WMA")),
    ("dist_to_36MMA", pyNumFn (dictGet0 akvs "dist_to_36MMA")),
    ("weekly_close_count_above_36WMA",
      pyNumFn (dictGet0 akvs "weekly_close_count_above_36WMA")),
    ("gdx_gld_ratio_vs_50dma", dictGet0 akvs "gdx_gld_ratio_vs_50dma"),
    ("sil_slv_ratio_vs_50dma", dictGet0 akvs "sil_slv_ratio_vs_50dma"),
    ("vol20_up_ok", dictGet0 akvs "vol20_up_ok"),
    ("frames", .dict [
      ("hourly", .dict [
        ("close_above_sma36", dictGet0 hkvs "close_above_sma36"),
        ("dist_to_36MA", pyNumFn (dictGet0 hkvs "dist_to_36MA")),
        ("rsi14", pyNumFn (dictGet0 hkvs "rsi14")),
        ("macd", pyNumFn (dictGet0 hkvs "macd")),
        ("macd_signal", pyNumFn (dictGet0 hkvs "macd_signal")),
        ("macd_hist", pyNumFn (dictGet0 hkvs "macd_hist")),
        ("macd_cross", dictGet0 hkvs "macd_cross")]),
      ("daily", .dict [
        ("close_above_sma36", dictGet0 dkvs "close_above_sma36"),
        ("dist_to_36MA", pyNumFn (dictGet0 dkvs "dist_to_36MA")),
        ("rsi14", pyNumFn (dictGet0 dkvs "rsi14")),
        ("macd", pyNumFn (dictGet0 dkvs "macd")),
        ("macd_signal", pyNumFn (dictGet0 dkvs "macd_signal")),
        ("macd_hist", pyNumFn (dictGet0 dkvs "macd_hist")),
        ("macd_cross", dictGet0 dkvs "macd_cross")]),
      ("weekly", .dict [
        ("close_above_sma36", dictGet0 wkvs "close_above_sma36"),
        ("dist_to_36MA", pyNumFn (dictGet0 wkvs "dist_to_36MA")),
        ("rsi14", pyNumFn (dictGet0 wkvs "rsi14")),
        ("macd", pyNumFn (dictGet0 wkvs "macd")),
        ("macd_signal", pyNumFn (dictGet0 wkvs "macd_signal")),
        ("macd_hist", pyNumFn (dictGet0 wkvs "macd_hist")),
        ("macd_cross", dictGet0 wkvs "macd_cross")]),
      ("monthly", .dict [
        ("close_above_sma36", dictGet0 mkvs "close_above_sma36"),
        ("dist_to_36MA", pyNumFn (dictGet0 mkvs "dist_to_36MA")),
        ("rsi14", pyNumFn (dictGet0 mkvs "rsi14")),
        ("macd", pyNumFn (dictGet0 mkvs "macd")),
        ("macd_signal", pyNumFn (dictGet0 mkvs "macd_signal")),
        ("macd_hist", pyNumFn (dictGet0 mkvs "macd_hist")),
        ("macd_cross", dictGet0 mkvs "macd_cross")])])])

/-- Mirror base URLs from export_for_chatgpt.py. -/
def RAW_BASE : String :=
  "https://raw.githubusercontent.com/regg92s-hub/market-daily-report/gh-pages"

/-- jsDelivr mirror base URL from export_for_chatgpt.py. -/
def JS_BASE : String :=
  "https://cdn.jsdelivr.net/gh/regg92s-hub/market-daily-report@gh-pages"

/-- GitHub Pages mirror base URL from export_for_chatgpt.py. -/
def PAGES_BASE : String :=
  "https://regg92s-hub.github.io/market-daily-report"

/-- The three absolute mirror URLs `_abspath_for(rel)` builds for a
relative artifact path. -/
structure MirrorUrls where
  raw : String
  jsdelivr : String
  pages : String
deriving DecidableEq, Repr

/-- `_abspath_for(rel)` from export_for_chatgpt.py. -/
def abspath_for (rel : String) : MirrorUrls :=
  let r := String.mk (rel.toList.dropWhile (fun c => c == '/'))
  ⟨RAW_BASE ++ "/" ++ r, JS_BASE ++ "/" ++ r, PAGES_BASE ++ "/" ++ r⟩

/-- Does the case-insensitive regex search `_{frame}_compact\.png$`
succeed on `f`? The pattern is a literal suffix, so this is a suffix test
on the lowercased filename. -/
def frameMatches (frame : String) (f : String) : Bool :=
  List.isSuffixOf ("_" ++ frame ++ "_compact.png").toList
    (f.toList.map Char.toLower)

/-- `find_for(frame)` inside `_choose_best_compact`: the first file in
list order whose name matches the frame's compact-chart pattern. -/
def find_for (files : List String) (frame : String) : Option String :=
  files.find? (frameMatches frame)

/-- The fixed timeframe priority order of `_choose_best_compact`. -/
def chartFrames : List String := ["daily", "weekly", "monthly", "hourly"]

/-- `_choose_best_compact(files_for_ticker)` from export_for_chatgpt.py:
per-frame entries in priority order for the frames that have a matching
file, then a "best" entry equal to the first present frame's URLs. -/
def choose_best_compact (files : List String) : List (String × MirrorUrls) :=
  let out := chartFrames.filterMap
    (fun fr => (find_for files fr).map (fun f => (fr, abspath_for f)))
  match out.head? with
  | some p => out ++ [("best", p.2)]
  | Option.none => out

/-! ## lib_net.py -/

/-- Python whitespace for str.strip and the regex class backslash-s
(ASCII subset; the sources only ever see ASCII whitespace). -/
def pyIsSpace (c : Char) : Bool :=
  c == ' ' || c == '\t' || c == '\n' || c == '\r' || c == '\x0b' || c == '\x0c'

/-- Python str.strip(). -/
def pyStrip (s : List Char) : List Char :=
  ((s.dropWhile pyIsSpace).reverse.dropWhile pyIsSpace).reverse

/-- One left-to-right pass collapsing each maximal whitespace run to a
single space: the effect of re.sub on the whitespace-run pattern with a
single-space replacement. The flag records whether the previous character
was part of a whitespace run. -/
def collapseWsAux : Bool → List Char → List Char
  | _, [] => []
  | prevSp, c :: rest =>
    if pyIsSpace c then
      if prevSp then collapseWsAux true rest
      else ' ' :: collapseWsAux true rest
    else c :: collapseWsAux false rest

/-- `normalize_title(t)` from lib_net.py: collapse whitespace runs, strip,
lowercase. -/
def normalize_title (t : String) : String :=
  String.mk ((pyStrip (collapseWsAux false t.toList)).map Char.toLower)

/-- Components returned by urllib.parse.urlsplit. -/
structure UrlParts where
  scheme : List Char
  netloc : List Char
  path : List Char
  query : List Char
  fragment : List Char

/-- Characters allowed in a URL scheme (urllib scheme_chars). -/
def schemeCharB (c : Char) : Bool :=
  c.isAlpha || c.isDigit || c == '+' || c == '-' || c == '.'

/-- The scheme-splitting step of urlsplit: a leading alphabetic character
followed by scheme characters up to a colon becomes the (lowercased)
scheme. -/
def splitSchemeF (url : List Char) : List Char × List Char :=
  match splitFirst [':'] url with
  | some (before, after) =>
    if !before.isEmpty && (before.headD 'a').isAlpha && before.all schemeCharB
    then (before.map Char.toLower, after)
    else ([], url)
  | Option.none => ([], url)

/-- urllib _splitnetloc: the netloc extends to the first of slash,
question mark or hash; the delimiter stays with the remainder. -/
def splitNetlocF (s : List Char) : List Char × List Char :=
  (s.takeWhile (fun c => !(c == '/' || c == '?' || c == '#')),
   s.dropWhile (fun c => !(c == '/' || c == '?' || c == '#')))

/-- The first step of urlsplit: remove the unsafe bytes tab, carriage
return and newline anywhere in the url. -/
def removeUnsafeF (s : List Char) : List Char :=
  s.filter (fun c => !(c == '\t' || c == '\r' || c == '\n'))

/-- The fragment-splitting step of urlsplit (split at the first hash). -/
def splitFragmentF (s : List Char) : List Char × List Char :=
  match splitFirst ['#'] s with
  | some (b, a) => (b, a)
  | Option.none => (s, ([] : List Char))

/-- The query-splitting step of urlsplit (split at the first question
mark). -/
def splitQueryF (s : List Char) : List Char × List Char :=
  match splitFirst ['?'] s with
  | some (b, a) => (b, a)
  | Option.none => (s, ([] : List Char))

/-- urlsplit after scheme and netloc have been taken: split off the
fragment, then the query, from the remaining url. -/
def urlsplitAfterNetloc (scheme netloc rest : List Char) : UrlParts :=
  let fr := splitFragmentF rest
  let qr := splitQueryF fr.1
  ⟨scheme, netloc, qr.1, qr.2, fr.2⟩

/-- urlsplit after the scheme has been taken: a double slash introduces
the netloc, which extends to the next delimiter. -/
def urlsplitAfterScheme (scheme rest : List Char) : UrlParts :=
  if isPref ['/', '/'] rest then
    urlsplitAfterNetloc scheme (splitNetlocF (rest.drop 2)).1
      (splitNetlocF (rest.drop 2)).2
  else urlsplitAfterNetloc scheme [] rest

/-- urlsplit on an input already cleared of unsafe bytes. -/
def urlsplitCore (url0 : List Char) : UrlParts :=
  urlsplitAfterScheme (splitSchemeF url0).1 (splitSchemeF url0).2

/-- urllib.parse.urlsplit (ASCII model), staged as the CPython sequence:
strip unsafe bytes, split scheme, then netloc after a double slash, then
fragment, then query. -/
def urlsplitF (url : List Char) : UrlParts :=
  urlsplitCore (removeUnsafeF url)

/-- urllib.parse.urlunsplit. -/
def urlunsplitF (p : UrlParts) : List Char :=
  let url := p.path
  let url := if !p.netloc.isEmpty || (!url.isEmpty && isPref ['/', '/'] url)
    then ['/', '/'] ++ p.netloc ++
      (if !url.isEmpty && !(isPref ['/'] url) then '/' :: url else url)
    else url
  let url := if !p.scheme.isEmpty then p.scheme ++ ':' :: url else url
  let url := if !p.query.isEmpty then url ++ '?' :: p.query else url
  if !p.fragment.isEmpty then url ++ '#' :: p.fragment else url

/-- Hexadecimal digit test. -/
def isHexDigitB (c : Char) : Bool :=
  c.isDigit || (decide (97 ≤ c.toNat) && decide (c.toNat ≤ 102)) ||
    (decide (65 ≤ c.toNat) && decide (c.toNat ≤ 70))

/-- Value of a hexadecimal digit. -/
def hexVal (c : Char) : Nat :=
  if c.isDigit then c.toNat - 48
  else if 97 ≤ c.toNat then c.toNat - 87
  else c.toNat - 55

/-- urllib.parse.unquote on characters (byte-as-codepoint model,
faithful for ASCII percent escapes): a percent sign followed by two hex
digits decodes to that byte; malformed escapes stay literal. -/
def unquoteChars : List Char → List Char
  | '%' :: h1 :: h2 :: rest =>
    if isHexDigitB h1 && isHexDigitB h2 then
      Char.ofNat (16 * hexVal h1 + hexVal h2) :: unquoteChars rest
    else '%' :: unquoteChars (h1 :: h2 :: rest)
  | c :: rest => c :: unquoteChars rest
  | [] => []

/-- The plus-to-space step parse_qsl applies before unquoting. -/
def plusToSpace (s : List Char) : List Char :=
  s.map (fun c => if c == '+' then ' ' else c)

/-- Python str.split(sep) keeping empty fields. -/
def splitOnChar (sep : Char) : List Char → List (List Char)
  | [] => [[]]
  | c :: rest =>
    let r := splitOnChar sep rest
    if c == sep then [] :: r
    else
      match r with
      | h :: t => (c :: h) :: t
      | [] => [[c]]

/-- One ampersand-separated field of a query string, as parse_qsl with
keep_blank_values=True: empty fields are skipped, a field without an
equals sign gets an empty value, and both name and value get the
plus-to-space and unquote treatment. -/
def parseQslPair (nv : List Char) : Option (List Char × List Char) :=
  if nv.isEmpty then Option.none
  else
    let p := match splitFirst ['='] nv with
      | some (b, a) => (b, a)
      | Option.none => (nv, ([] : List Char))
    some (unquoteChars (plusToSpace p.1), unquoteChars (plusToSpace p.2))

/-- urllib.parse.parse_qsl with keep_blank_values=True. -/
def parse_qsl (qs : List Char) : List (List Char × List Char) :=
  (splitOnChar '&' qs).filterMap parseQslPair

/-- Characters quote_plus never escapes (letters, digits, underscore,
dot, dash, tilde). -/
def alwaysSafeB (c : Char) : Bool :=
  c.isAlphanum || c == '_' || c == '.' || c == '-' || c == '~'

/-- Uppercase hexadecimal digit. -/
def hexDigitUpper (n : Nat) : Char :=
  if n < 10 then Char.ofNat (48 + n) else Char.ofNat (55 + n)

/-- UTF-8 bytes of a character. -/
def utf8Bytes (c : Char) : List Nat :=
  let n := c.toNat
  if n < 128 then [n]
  else if n < 2048 then [192 + n / 64, 128 + n % 64]
  else if n < 65536 then
    [224 + n / 4096, 128 + (n / 64) % 64, 128 + n % 64]
  else
    [240 + n / 262144, 128 + (n / 4096) % 64, 128 + (n / 64) % 64,
      128 + n % 64]

/-- Percent-encode a single byte. -/
def pctEncodeByte (b : Nat) : List Char :=
  ['%', hexDigitUpper (b / 16), hexDigitUpper (b % 16)]

/-- urllib.parse.quote_plus with an empty safe string: safe characters
stay, space becomes plus, everything else is percent-encoded from its
UTF-8 bytes. -/
def quote_plus (s : List Char) : List Char :=
  (s.map (fun c =>
    if alwaysSafeB c then [c]
    else if c == ' ' then ['+']
    else ((utf8Bytes c).map pctEncodeByte).flatten)).flatten

/-- urllib.parse.urlencode on a list of pairs. -/
def urlencode (q : List (List Char × List Char)) : List Char :=
  List.intercalate ['&'] (q.map (fun kv => quote_plus kv.1 ++ '=' :: quote_plus kv.2))

/-- The tracking-parameter name prefixes of `_strip_tracking`. -/
def trackingPres : List (List Char) :=
  ["utm_".toList, "gclid".toList, "fbclid".toList, "igshid".toList,
    "mc_cid".toList, "mc_eid".toList]

/-- Case-insensitive prefix match of the tracking regex. -/
def isTrackingKey (k : List Char) : Bool :=
  trackingPres.any (fun p => isPref p (k.map Char.toLower))

/-- `_strip_tracking(url)` from lib_net.py: drop tracking query
parameters and the fragment, re-encoding the remaining query. -/
def strip_tracking (url : List Char) : List Char :=
  let p := urlsplitF url
  let q := (parse_qsl p.query).filter (fun kv => !isTrackingKey kv.1)
  urlunsplitF ⟨p.scheme, p.netloc, p.path, urlencode q, []⟩

/-- `normalize_url(url)` from lib_net.py on character lists: strip
whitespace, strip tracking parameters, rewrite every http scheme
substring to https, then remove a trailing slash from a non-root path
and drop the fragment. -/
def normalize_urlL (url : List Char) : List Char :=
  let u1 := pyStrip url
  let u2 := strip_tracking u1
  let u3 := replaceAll "http://".toList "https://".toList u2
  let p := urlsplitF u3
  let path := if p.path ≠ ['/'] ∧ p.path.getLast? = some '/'
    then p.path.dropLast else p.path
  urlunsplitF ⟨p.scheme, p.netloc, path, p.query, []⟩

/-- `normalize_url` on Lean strings. -/
def normalize_url (s : String) : String :=
  String.mk (normalize_urlL s.toList)

/-- A news record as the scripts use it: a string-valued dict with the
keys the pipeline reads. Keys a producer did not set are the empty
string, matching the `.get(key, "")` defaults in the sources. -/
structure NewsItem where
  title : String
  url : String
  timestamp_iso : String
  published : String
  source : String
  image : String
deriving DecidableEq, Repr

/-- The canonical identity `dedup_news` computes for an item. -/
def newsKey (it : NewsItem) : String × String × String :=
  (normalize_title it.title, normalize_url it.url, it.timestamp_iso)

/-- The seen-set loop of `dedup_news`. -/
def dedupGo (seen : List (String × String × String)) :
    List NewsItem → List NewsItem
  | [] => []
  | it :: rest =>
    let k := newsKey it
    if k ∈ seen then dedupGo seen rest
    else it :: dedupGo (k :: seen) rest

/-- `dedup_news(items)` from lib_net.py: keep the first item for each
canonical (normalized title, normalized url, timestamp) key. -/
def dedup_news (items : List NewsItem) : List NewsItem := dedupGo [] items

/-- `choose_first_available_png(session, base_variants)` from lib_net.py
with the HTTP layer abstracted as a `respond` function: `some code` is a
completed HEAD request with that status, `none` a raised exception. The
first URL answering a 2xx status is returned; exceptions and other
statuses skip to the next URL; no URL left yields null. -/
def choose_first_available_png (respond : String → Option Nat) :
    List String → Option String
  | [] => Option.none
  | u :: rest =>
    match respond u with
    | some code =>
      if 200 ≤ code ∧ code < 300 then some u
      else choose_first_available_png respond rest
    | Option.none => choose_first_available_png respond rest

/-! ## fetch_nftrh_northstar.py -/

/-- The sort relation of `merged.sort(key=lambda x: x.get("published",
""), reverse=True)`: descending by the raw published string. Python's
sort is stable, so the merge is modelled with a stable sort under this
relation; items with equal keys keep their input order. -/
def newsSortRel (a b : NewsItem) : Prop :=
  b.published ≤ a.published

instance : DecidableRel newsSortRel := fun a b =>
  inferInstanceAs (Decidable (b.published ≤ a.published))

instance : IsTotal NewsItem newsSortRel :=
  ⟨fun a b => le_total b.published a.published⟩

instance : IsTrans NewsItem newsSortRel :=
  ⟨fun _ _ _ hab hbc => le_trans hbc hab⟩

/-- The merge step of fetch_nftrh_northstar.main (lines 94-98): freshly
fetched posts concatenated before the previously persisted ones,
stable-sorted descending by the raw published string, truncated to 20
items. -/
def mergeNews (posts existing : List NewsItem) : List NewsItem :=
  ((posts ++ existing).insertionSort newsSortRel).take 20

/-! ## postprocess_report.py (the Publisher) -/

/-- The charts-list start sentinel in docs/index.html. -/
def chartsStartMarker : List Char := "<!-- CHARTS_LIST_START -->".toList

/-- The charts-list end sentinel in docs/index.html. -/
def chartsEndMarker : List Char := "<!-- CHARTS_LIST_END -->".toList

/-- The identifying open tag of the injected report table. -/
def tableOpenMarker : List Char := "<table id=\"daily-report-table\"".toList

/-- The closing table tag. -/
def tableCloseTag : List Char := "</table>".toList

/-- The closing body anchor. -/
def bodyCloseTag : List Char := "</body>".toList

/-- `table_html` from postprocess_report.py as a function of the
rendered rows. -/
def table_html (rows : List Char) : List Char :=
  ("<table id=\"daily-report-table\" border=\"1\">\n" ++
   "  <thead><tr><th>Symbol</th><th>Price</th><th>Change</th>" ++
   "<th>% Change</th></tr></thead>\n  <tbody>\n").toList ++
  rows ++ "  </tbody>\n</table>".toList

/-- The replacement text of the charts-list substitution. -/
def chartsReplacement (items : List Char) : List Char :=
  "<!-- CHARTS_LIST_START -->\n".toList ++ items ++
    "    <!-- CHARTS_LIST_END -->".toList

/-- The index.html update of postprocess_report.py (lines 414-423):
replace the charts-list region between the sentinels (all occurrences,
no effect when the markers are absent), delete every marker-identified
table, then insert the fresh table before each closing body anchor, or
append it at document end when no anchor exists. -/
def update_index_html (items rows page : List Char) : List Char :=
  let p1 := subLazy chartsStartMarker chartsEndMarker
    (chartsReplacement items) page
  let p2 := subLazy tableOpenMarker tableCloseTag [] p1
  if containsSub bodyCloseTag p2 then
    replaceAll bodyCloseTag (table_html rows ++ '\n' :: bodyCloseTag) p2
  else p2 ++ '\n' :: table_html rows

/-! ## Output write traces (for the atomicity claim) -/

/-- A filesystem operation an output step performs. -/
inductive FsOp where
  | mkdir (path : String)
  | write (path content : String)
  | rename (src dst : String)
deriving DecidableEq, Repr

/-- Is the operation a rename? -/
def FsOp.isRename : FsOp → Bool
  | .rename _ _ => true
  | _ => false

/-- The write trace of export_for_chatgpt.main's output step (lines
285-287): create the parent directory, then write the feed document
directly to its canonical path with a single write_text call. -/
def export_output_ops (feed : String) : List FsOp :=
  [.mkdir "docs", .write "docs/chatgpt_feed.json" feed]

/-- The write trace of postprocess_report.py's output statements: the
combined report JSON (line 135), the markdown report (line 305), the
standalone table page (line 381) and, when docs/index.html exists, the
updated hosted page (line 425) are each written directly to their
canonical paths. -/
def postprocess_output_ops (reportJson reportMd tablePage idxHtml : String)
    (indexExists : Bool) : List FsOp :=
  [.write "docs/report.json" reportJson, .write "docs/report.md" reportMd,
    .write "docs/report_table.html" tablePage] ++
  (if indexExists then [.write "docs/index.html" idxHtml] else [])

/-! ## Concrete scenario inputs and spec-side reference definitions -/

/-- Lookup in the string-keyed chart mapping. -/
def assocFind (l : List (String × MirrorUrls)) (k : String) :
    Option MirrorUrls :=
  (l.find? (fun p => p.1 == k)).map (fun p => p.2)

/-- Dict lookup on a PyVal; `Option.none` means the key is missing or the
value is not a dict. -/
def pyLookup (v : PyVal) (k : String) : Option PyVal :=
  match v with
  | .dict kvs => lookupKey kvs k
  | _ => Option.none

/-- The value shapes `_num` can return: a Python number (bool counts as
int), possibly non-finite, or None — never a string, list or dict. -/
def numLikeB : PyVal → Bool
  | .none => true
  | .bool _ => true
  | .int _ => true
  | .float _ => true
  | _ => false

/-- Is the field `k` of the record present with a number-or-None value? -/
def numFieldOkB (md : PyVal) (k : String) : Bool :=
  match pyLookup md k with
  | some v => numLikeB v
  | Option.none => false

/-- Check of a per-timeframe record: every numeric field of the frame is
a number or None. -/
def frameFieldsNumericOk (fv : PyVal) : Bool :=
  ["dist_to_36MA", "rsi14", "macd", "macd_signal", "macd_hist"].all
    (fun k => numFieldOkB fv k)

/-- Check of a canonical metrics record: every field that the normalizer
builds through `_num` holds a number or None, at the top level and in all
four timeframe sub-records. -/
def metricsNumericOk (md : PyVal) : Bool :=
  (["last", "52w_high", "52w_low", "dist_to_36WMA", "dist_to_36MMA",
    "weekly_close_count_above_36WMA"].all (fun k => numFieldOkB md k)) &&
  (["hourly", "daily", "weekly", "monthly"].all (fun fr =>
    match (pyLookup md "frames").bind (fun f => pyLookup f fr) with
    | some fv => frameFieldsNumericOk fv
    | Option.none => false))

/-- A one-asset ticker catalog with the given GLD asset object. -/
def mkAssetIdx (akvs : List (String × PyVal)) : PyVal :=
  .dict [("summary", .dict [("assets", .dict [("GLD", .dict akvs)])])]

/-- The spec's C3 scenario input catalog. -/
def idxGLD : PyVal :=
  mkAssetIdx [("last", .float (.finite 190.2)),
    ("52w_high", .float (.finite 192.0)),
    ("frames", .dict [("daily", .dict [("sma36", .float (.finite 188.0))])])]

/-- A per-timeframe record whose fields are all null, as the normalizer
produces when the input frame carries none of the read keys. -/
def frameAllNull : PyVal :=
  .dict [("close_above_sma36", PyVal.none), ("dist_to_36MA", PyVal.none),
    ("rsi14", PyVal.none), ("macd", PyVal.none),
    ("macd_signal", PyVal.none), ("macd_hist", PyVal.none),
    ("macd_cross", PyVal.none)]

/-- A catalog whose 52-week high is the non-finite NaN float. -/
def idxNan : PyVal := mkAssetIdx [("52w_high", .float .nan)]

/-- A catalog whose 52-week high is a numeric string. -/
def idxNumStr : PyVal := mkAssetIdx [("52w_high", .str "192.0")]

/-- A catalog using the primary key name for the 52-week high. -/
def idxPrimaryKey : PyVal := mkAssetIdx [("52w_high", .float (.finite 192.0))]

/-- The same catalog using the legacy alias "high52" instead. -/
def idxAliasKey : PyVal := mkAssetIdx [("high52", .float (.finite 192.0))]

/-- Mirror probe scenario: the first mirror answers with a 301 redirect,
the second with 200; any other URL raises. -/
def mirrorProbe1 : String → Option Nat := fun u =>
  if u = PAGES_BASE ++ "/charts/GLD_daily_compact.png" then some 301
  else if u = RAW_BASE ++ "/charts/GLD_daily_compact.png" then some 200
  else Option.none

/-- The mirror URLs probed in the scenario, in priority order. -/
def mirrorList1 : List String :=
  [PAGES_BASE ++ "/charts/GLD_daily_compact.png",
   RAW_BASE ++ "/charts/GLD_daily_compact.png"]

/-- Modelled from the spec: a probe "succeeds" on a reachable 2xx/3xx-
class outcome (the claim's success notion for the Mirror Resolver). -/
def spec_probe_success (o : Option Nat) : Bool :=
  match o with
  | some s => decide (200 ≤ s) && decide (s < 400)
  | Option.none => false

/-- Modelled from the spec: the atomic-write discipline the claim
asserts — the document is written to a temporary location and renaming
it into the canonical path is the final step of the trace. -/
def spec_atomic_trace (trace : List FsOp) (canonical : String) : Prop :=
  ∃ tmp content, tmp ≠ canonical ∧ FsOp.write tmp content ∈ trace ∧
    trace.getLast? = some (FsOp.rename tmp canonical)

/-- Modelled from the spec: a timestamp is "parseable" when it starts
with an ISO-8601 date (which all pipeline-produced timestamps do). -/
def specParseableTs (s : String) : Bool :=
  match s.toList with
  | y1 :: y2 :: y3 :: y4 :: d1 :: m1 :: m2 :: d2 :: dd1 :: dd2 :: _ =>
    y1.isDigit && y2.isDigit && y3.isDigit && y4.isDigit && d1 == '-' &&
    m1.isDigit && m2.isDigit && d2 == '-' && dd1.isDigit && dd2.isDigit
  | _ => false

/-- A freshly fetched item whose URL carries a tracking parameter and
whose title differs only in letter case from the persisted copy. -/
def freshTracked : NewsItem :=
  ⟨"Gold Update", "https://ex.com/post?utm_source=x", "",
   "2026-01-01T00:00:00+00:00", "NFTRH", ""⟩

/-- The previously persisted copy of the same story. -/
def persistedPlain : NewsItem :=
  ⟨"gold update", "https://ex.com/post", "",
   "2026-01-01T00:00:00+00:00", "NFTRH", ""⟩

/-- A fresh item whose published field is not a parseable timestamp. -/
def unparseableItem : NewsItem :=
  ⟨"A", "https://ex.com/a", "", "zzz not a date", "NFTRH", ""⟩

/-- A persisted item with a parseable ISO timestamp. -/
def parseableItem : NewsItem :=
  ⟨"B", "https://ex.com/b", "", "2026-01-01T00:00:00+00:00", "NFTRH", ""⟩

/-- The part of the scenario hosted page before the closing body anchor. -/
def pageBodyPre : List Char := "<html><body><h1>x</h1>".toList

/-- The part of the scenario hosted page after the closing body anchor. -/
def pagePost : List Char := "</html>".toList

/-- A marker-free hosted page, as generate_report.py first writes it. -/
def page0 : List Char := pageBodyPre ++ bodyCloseTag ++ pagePost

/-- One publisher run over the hosted page with empty charts-list items
and empty table rows (the identical-input setting of the claim). -/
def publishStep (page : List Char) : List Char := update_index_html [] [] page

/-- N successive publisher runs. -/
def publishIter : Nat → List Char → List Char
  | 0, p => p
  | n + 1, p => publishIter n (publishStep p)

/-- The URL family of the trailing-slash analysis: a fixed https URL
whose path ends in a run of slashes. -/
def slashUrlBase : List Char := "https://a.com/b".toList

/-! ### Lemmas about the scanning toolkit -/

theorem isPref_eq_true_iff (pat s : List Char) :
    isPref pat s = true ↔ pat <+: s := by
  induction pat generalizing s with
  | nil => simp [isPref]
  | cons a as_ ih =>
    cases s with
    | nil => simp [isPref]
    | cons b bs =>
      simp only [isPref, Bool.and_eq_true, beq_iff_eq]
      rw [ih]
      constructor
      · rintro ⟨rfl, h⟩
        rcases h with ⟨t, ht⟩
        exact ⟨t, by rw [List.cons_append, ht]⟩
      · rintro ⟨t, ht⟩
        injection ht with h1 h2
        exact ⟨h1, ⟨t, h2⟩⟩

theorem splitFirst_some_parts {pat s b a : List Char}
    (h : splitFirst pat s = some (b, a)) : s = b ++ pat ++ a := by
  induction s generalizing b with
  | nil =>
    simp only [splitFirst] at h
    by_cases hp : pat.isEmpty
    · rw [if_pos hp] at h
      injection h with h'
      injection h' with h1 h2
      subst h1; subst h2
      rw [List.isEmpty_iff] at hp
      simp [hp]
    · rw [if_neg hp] at h
      cases h
  | cons c rest ih =>
    by_cases hp : isPref pat (c :: rest) = true
    · simp only [splitFirst, if_pos hp] at h
      injection h with h'
      injection h' with h1 h2
      subst h1
      rcases (isPref_eq_true_iff pat (c :: rest)).mp hp with ⟨t, ht⟩
      subst h2
      rw [← ht, List.drop_left]
      simp
    · simp only [splitFirst, if_neg hp] at h
      cases hrec : splitFirst pat rest with
      | none => simp only [hrec] at h; cases h
      | some p =>
        obtain ⟨b', a'⟩ := p
        simp only [hrec] at h
        injection h with h'
        injection h' with h1 h2
        subst h2
        subst h1
        have := ih hrec
        rw [List.cons_append, List.cons_append, ← this]

theorem splitFirst_length {pat s b a : List Char} (hpat : pat ≠ [])
    (h : splitFirst pat s = some (b, a)) : a.length < s.length := by
  have := splitFirst_some_parts h
  subst this
  have : 0 < pat.length := List.length_pos.mpr hpat
  simp [List.length_append]
  omega

theorem noOccStart_cons {pat : List Char} {c : Char} {a b : List Char}
    (h : NoOccStart pat (c :: a) b) : NoOccStart pat a b := by
  intro a1 a2 hsplit hne
  exact h (c :: a1) a2 (by simp [hsplit]) hne

theorem splitFirst_append_of_noOccStart {pat a b : List Char}
    (h : NoOccStart pat a b) :
    splitFirst pat (a ++ b) =
      (splitFirst pat b).map (fun p => (a ++ p.1, p.2)) := by
  induction a with
  | nil =>
    cases hb : splitFirst pat b <;> simp [hb]
  | cons c a' ih =>
    have hnp : ¬ (isPref pat (c :: (a' ++ b)) = true) := by
      intro hc
      exact h [] (c :: a') rfl (by simp) (by simpa using hc)
    rw [List.cons_append]
    simp only [splitFirst, if_neg hnp]
    rw [ih (noOccStart_cons h)]
    cases hb : splitFirst pat b with
    | none => simp
    | some p => cases p; simp

theorem isPref_of_append_cases {pat a2 b : List Char}
    (h : isPref pat (a2 ++ b) = true) :
    isPref pat a2 = true ∨ isPref a2 pat = true := by
  rw [isPref_eq_true_iff] at h
  rw [isPref_eq_true_iff, isPref_eq_true_iff]
  exact List.prefix_or_prefix_of_prefix h (List.prefix_append a2 b)

theorem noOccStart_of_safeChunk {pat a : List Char}
    (h : safeChunk pat a = true) (b : List Char) : NoOccStart pat a b := by
  intro a1 a2 hsplit hne hpref
  have hlen : a1.length < a.length := by
    subst hsplit
    simp [List.length_append]
    exact List.length_pos.mpr hne
  have := (List.all_eq_true.mp h) a1.length (List.mem_range.mpr hlen)
  have hdrop : a.drop a1.length = a2 := by
    subst hsplit
    simp [List.drop_left' rfl]
  rw [hdrop] at this
  simp only [Bool.and_eq_true, Bool.not_eq_true'] at this
  rcases isPref_of_append_cases hpref with h1 | h1
  · rw [this.2] at h1; cases h1
  · rw [this.1] at h1; cases h1

theorem noOccStart_replicate {pat : List Char} {c : Char} (hpat : pat ≠ [])
    (hne : pat.head? ≠ some c) (n : Nat) (b : List Char) :
    NoOccStart pat (List.replicate n c) b := by
  intro a1 a2 hsplit hne2 hpref
  cases a2 with
  | nil => exact hne2 rfl
  | cons x xs =>
    have hx : x = c := by
      apply @List.eq_of_mem_replicate Char c x n
      rw [hsplit]
      exact List.mem_append_right a1 (List.mem_cons_self x xs)
    cases pat with
    | nil => exact absurd rfl hpat
    | cons p0 pr =>
      subst hx
      simp only [List.cons_append, isPref, Bool.and_eq_true, beq_iff_eq] at hpref
      exact hne (by simp [hpref.1])

theorem splitFirst_replicate {pat : List Char} {c : Char} (hpat : pat ≠ [])
    (hne : pat.head? ≠ some c) (n : Nat) (b : List Char) :
    splitFirst pat (List.replicate n c ++ b) =
      (splitFirst pat b).map (fun p => (List.replicate n c ++ p.1, p.2)) :=
  splitFirst_append_of_noOccStart (noOccStart_replicate hpat hne n b)

theorem isPref_length_le {pat s : List Char} (h : isPref pat s = true) :
    pat.length ≤ s.length := by
  rcases (isPref_eq_true_iff pat s).mp h with ⟨t, ht⟩
  subst ht
  simp [List.length_append]

theorem isPref_append_extend {pat a b : List Char}
    (h : isPref pat a = true) : isPref pat (a ++ b) = true := by
  rcases (isPref_eq_true_iff pat a).mp h with ⟨t, ht⟩
  exact (isPref_eq_true_iff pat (a ++ b)).mpr ⟨t ++ b, by rw [← ht]; simp⟩

theorem isPref_append_of_length_le {pat a b : List Char}
    (hlen : pat.length ≤ a.length) (h : isPref pat (a ++ b) = true) :
    isPref pat a = true := by
  rcases (isPref_eq_true_iff pat (a ++ b)).mp h with ⟨t, ht⟩
  apply (isPref_eq_true_iff pat a).mpr
  have hta : a.take pat.length = pat := by
    have h2 := congrArg (List.take pat.length) ht
    rw [List.take_left, List.take_append_of_le_length hlen] at h2
    exact h2.symm
  have h3 := List.take_append_drop pat.length a
  rw [hta] at h3
  exact ⟨a.drop pat.length, h3⟩

/-- The first occurrence of `pat` found inside `a` is also the first
occurrence inside `a ++ b`. -/
theorem splitFirst_append_left {pat a b x y : List Char}
    (h : splitFirst pat a = some (x, y)) :
    splitFirst pat (a ++ b) = some (x, y ++ b) := by
  induction a generalizing x with
  | nil =>
    simp only [splitFirst] at h
    by_cases hp : pat.isEmpty
    · rw [if_pos hp] at h
      injection h with h'
      injection h' with h1 h2
      subst h1; subst h2
      rw [List.isEmpty_iff] at hp
      subst hp
      simp [splitFirst, List.isEmpty_iff]
      cases b with
      | nil => simp [splitFirst]
      | cons c cs => simp [splitFirst, isPref]
    · rw [if_neg hp] at h
      cases h
  | cons c rest ih =>
    by_cases hp : isPref pat (c :: rest) = true
    · simp only [splitFirst, if_pos hp] at h
      injection h with h'
      injection h' with h1 h2
      subst h1
      have hlen : pat.length ≤ (c :: rest).length := isPref_length_le hp
      rw [List.cons_append]
      have hp2 : isPref pat (c :: (rest ++ b)) = true := by
        have := @isPref_append_extend pat (c :: rest) b hp
        simpa using this
      simp only [splitFirst, if_pos hp2]
      rw [← h2, ← List.cons_append, List.drop_append_of_le_length hlen]
    · simp only [splitFirst, if_neg hp] at h
      cases hrec : splitFirst pat rest with
      | none => simp only [hrec] at h; cases h
      | some p =>
        obtain ⟨x', y'⟩ := p
        simp only [hrec] at h
        injection h with h'
        injection h' with h1 h2
        subst h2
        subst h1
        have hlen : pat.length ≤ rest.length := by
          have := splitFirst_some_parts hrec
          subst this
          simp [List.length_append]
          omega
        have hp2 : isPref pat (c :: (rest ++ b)) = false := by
          by_contra hcon
          rw [Bool.not_eq_false] at hcon
          have : isPref pat (c :: rest) = true :=
            isPref_append_of_length_le
              (by simp only [List.length_cons]; omega)
              (by simpa using hcon)
          exact hp this
        rw [List.cons_append]
        simp only [splitFirst, hp2, Bool.false_eq_true, if_false]
        rw [ih hrec]

theorem splitFirst_safe_append {pat a : List Char}
    (h : safeChunk pat a = true) (b : List Char) :
    splitFirst pat (a ++ b) =
      (splitFirst pat b).map (fun p => (a ++ p.1, p.2)) :=
  splitFirst_append_of_noOccStart (noOccStart_of_safeChunk h b)

theorem splitFirst_nil {pat : List Char} (hpat : pat ≠ []) :
    splitFirst pat [] = none := by
  simp [splitFirst, List.isEmpty_iff, hpat]

theorem splitFirst_of_isPref {pat s : List Char} (hpat : pat ≠ [])
    (h : isPref pat s = true) :
    splitFirst pat s = some ([], s.drop pat.length) := by
  cases s with
  | nil =>
    rcases (isPref_eq_true_iff pat []).mp h with ⟨t, ht⟩
    simp at ht
    exact absurd ht.1 hpat
  | cons c rest => simp [splitFirst, h]

theorem replaceAllF_congr {pat repl : List Char} (hpat : pat ≠ []) :
    ∀ f1 f2 s, s.length ≤ f1 → s.length ≤ f2 →
      replaceAllF pat repl f1 s = replaceAllF pat repl f2 s := by
  intro f1
  induction f1 with
  | zero =>
    intro f2 s h1 _
    have hs : s = [] := List.eq_nil_of_length_eq_zero (Nat.le_zero.mp h1)
    subst hs
    cases f2 with
    | zero => rfl
    | succ g => simp [replaceAllF, splitFirst_nil hpat]
  | succ f ih =>
    intro f2 s h1 h2
    cases f2 with
    | zero =>
      have hs : s = [] := List.eq_nil_of_length_eq_zero (Nat.le_zero.mp h2)
      subst hs
      simp [replaceAllF, splitFirst_nil hpat]
    | succ g =>
      cases hs : splitFirst pat s with
      | none => simp [replaceAllF, hs]
      | some p =>
        obtain ⟨b, a⟩ := p
        have hlt := splitFirst_length hpat hs
        simp only [replaceAllF, hs]
        rw [ih g a (by omega) (by omega)]

theorem replaceAll_eq {pat repl : List Char} (hpat : pat ≠ []) (s : List Char) :
    replaceAll pat repl s =
      match splitFirst pat s with
      | none => s
      | some (b, a) => b ++ repl ++ replaceAll pat repl a := by
  cases hs : splitFirst pat s with
  | none =>
    cases s with
    | nil => rfl
    | cons c cs => simp [replaceAll, replaceAllF, hs]
  | some p =>
    obtain ⟨b, a⟩ := p
    cases s with
    | nil => rw [splitFirst_nil hpat] at hs; cases hs
    | cons c cs =>
      simp only [replaceAll, List.length_cons, replaceAllF, hs]
      have hlt := splitFirst_length hpat hs
      simp only [List.length_cons] at hlt
      rw [replaceAllF_congr hpat cs.length a.length a (by omega) (le_refl _)]

theorem replaceAll_append {pat repl a b : List Char} (hpat : pat ≠ [])
    (h : NoOccStart pat a b) :
    replaceAll pat repl (a ++ b) = a ++ replaceAll pat repl b := by
  rw [replaceAll_eq hpat (a ++ b), replaceAll_eq hpat b,
    splitFirst_append_of_noOccStart h]
  cases hb : splitFirst pat b with
  | none => simp
  | some p => obtain ⟨b1, a1⟩ := p; simp

theorem subLazyF_congr {openP closeP repl : List Char} (hop : openP ≠ []) :
    ∀ f1 f2 s, s.length ≤ f1 → s.length ≤ f2 →
      subLazyF openP closeP repl f1 s = subLazyF openP closeP repl f2 s := by
  intro f1
  induction f1 with
  | zero =>
    intro f2 s h1 _
    have hs : s = [] := List.eq_nil_of_length_eq_zero (Nat.le_zero.mp h1)
    subst hs
    cases f2 with
    | zero => rfl
    | succ g => simp [subLazyF, splitFirst_nil hop]
  | succ f ih =>
    intro f2 s h1 h2
    cases f2 with
    | zero =>
      have hs : s = [] := List.eq_nil_of_length_eq_zero (Nat.le_zero.mp h2)
      subst hs
      simp [subLazyF, splitFirst_nil hop]
    | succ g =>
      cases hs1 : splitFirst openP s with
      | none => simp [subLazyF, hs1]
      | some p =>
        obtain ⟨b, a1⟩ := p
        cases hs2 : splitFirst closeP a1 with
        | none => simp [subLazyF, hs1, hs2]
        | some q =>
          obtain ⟨m, a2⟩ := q
          have hl1 := splitFirst_length hop hs1
          have hp2 := splitFirst_some_parts hs2
          have hl2 : a2.length ≤ a1.length := by
            rw [hp2]; simp [List.length_append]; omega
          simp only [subLazyF, hs1, hs2]
          rw [ih g a2 (by omega) (by omega)]

theorem subLazy_eq {openP closeP repl : List Char} (hop : openP ≠ [])
    (s : List Char) :
    subLazy openP closeP repl s =
      match splitFirst openP s with
      | none => s
      | some (b, a1) =>
        match splitFirst closeP a1 with
        | none => s
        | some (_, a2) => b ++ repl ++ subLazy openP closeP repl a2 := by
  cases hs1 : splitFirst openP s with
  | none =>
    cases s with
    | nil => rfl
    | cons c cs => simp [subLazy, subLazyF, hs1]
  | some p =>
    obtain ⟨b, a1⟩ := p
    cases s with
    | nil => rw [splitFirst_nil hop] at hs1; cases hs1
    | cons c cs =>
      cases hs2 : splitFirst closeP a1 with
      | none => simp [subLazy, subLazyF, hs1, hs2]
      | some q =>
        obtain ⟨m, a2⟩ := q
        have hl1 := splitFirst_length hop hs1
        simp only [List.length_cons] at hl1
        have hp2 := splitFirst_some_parts hs2
        have hl2 : a2.length ≤ a1.length := by
          rw [hp2]; simp [List.length_append]; omega
        simp only [subLazy, List.length_cons, subLazyF, hs1, hs2]
        rw [subLazyF_congr hop cs.length a2.length a2 (by omega) (le_refl _)]

theorem subLazy_append {openP closeP repl a b : List Char} (hop : openP ≠ [])
    (h : NoOccStart openP a b) :
    subLazy openP closeP repl (a ++ b) = a ++ subLazy openP closeP repl b := by
  rw [subLazy_eq hop (a ++ b), subLazy_eq hop b,
    splitFirst_append_of_noOccStart h]
  cases hb : splitFirst openP b with
  | none => simp
  | some p =>
    obtain ⟨b1, a1⟩ := p
    cases hc : splitFirst closeP a1 with
    | none => simp [hc]
    | some q => obtain ⟨m, a2⟩ := q; simp [hc]

theorem countSubF_congr {pat : List Char} (hpat : pat ≠ []) :
    ∀ f1 f2 s, s.length ≤ f1 → s.length ≤ f2 →
      countSubF pat f1 s = countSubF pat f2 s := by
  intro f1
  induction f1 with
  | zero =>
    intro f2 s h1 _
    have hs : s = [] := List.eq_nil_of_length_eq_zero (Nat.le_zero.mp h1)
    subst hs
    cases f2 with
    | zero => rfl
    | succ g => simp [countSubF, splitFirst_nil hpat]
  | succ f ih =>
    intro f2 s h1 h2
    cases f2 with
    | zero =>
      have hs : s = [] := List.eq_nil_of_length_eq_zero (Nat.le_zero.mp h2)
      subst hs
      simp [countSubF, splitFirst_nil hpat]
    | succ g =>
      cases hs : splitFirst pat s with
      | none => simp [countSubF, hs]
      | some p =>
        obtain ⟨b, a⟩ := p
        have hlt := splitFirst_length hpat hs
        simp only [countSubF, hs]
        rw [ih g a (by omega) (by omega)]

theorem countSub_eq {pat : List Char} (hpat : pat ≠ []) (s : List Char) :
    countSub pat s =
      match splitFirst pat s with
      | none => 0
      | some (_, a) => 1 + countSub pat a := by
  cases hs : splitFirst pat s with
  | none =>
    cases s with
    | nil => rfl
    | cons c cs => simp [countSub, countSubF, hs]
  | some p =>
    obtain ⟨b, a⟩ := p
    cases s with
    | nil => rw [splitFirst_nil hpat] at hs; cases hs
    | cons c cs =>
      simp only [countSub, List.length_cons, countSubF, hs]
      have hlt := splitFirst_length hpat hs
      simp only [List.length_cons] at hlt
      rw [countSubF_congr hpat cs.length a.length a (by omega) (le_refl _)]

theorem countSub_append {pat a b : List Char} (hpat : pat ≠ [])
    (h : NoOccStart pat a b) :
    countSub pat (a ++ b) = countSub pat b := by
  rw [countSub_eq hpat (a ++ b), countSub_eq hpat b,
    splitFirst_append_of_noOccStart h]
  cases hb : splitFirst pat b with
  | none => simp
  | some p => obtain ⟨b1, a1⟩ := p; simp


/-! ## Claim C5: the Mirror Resolver -/

/-- C5 counterexample: the claim says a 2xx/3xx-class outcome counts as a
successful probe and the first successful mirror's URL is returned, but
when the first mirror answers 301 (a success in the claim's sense) the
code skips it and returns the second mirror's URL. -/
theorem C5_counterexample :
    spec_probe_success
      (mirrorProbe1 (PAGES_BASE ++ "/charts/GLD_daily_compact.png")) = true ∧
    choose_first_available_png mirrorProbe1 mirrorList1 =
      some (RAW_BASE ++ "/charts/GLD_daily_compact.png") ∧
    (some (RAW_BASE ++ "/charts/GLD_daily_compact.png") : Option String) ≠
      some (PAGES_BASE ++ "/charts/GLD_daily_compact.png") := by
  decide

/-- C5 (amended): the Mirror Resolver probes the mirrors in the given
priority order and returns the first whose probe completes with a 2xx
status; exceptions and non-2xx statuses (3xx included) are skipped
without escalating to the caller, and when no mirror succeeds the result
is null. -/
theorem C5_mirror_fallback (respond : String → Option Nat)
    (urls : List String) :
    choose_first_available_png respond urls =
      urls.find? (fun u =>
        match respond u with
        | some code => decide (200 ≤ code) && decide (code < 300)
        | Option.none => false) := by
  induction urls with
  | nil => rfl
  | cons u rest ih =>
    cases hr : respond u with
    | none => simp [choose_first_available_png, List.find?, hr, ih]
    | some code =>
      by_cases h1 : 200 ≤ code
      · by_cases h2 : code < 300
        · simp [choose_first_available_png, List.find?, hr, h1, h2]
        · simp [choose_first_available_png, List.find?, hr, h1, h2, ih]
      · simp [choose_first_available_png, List.find?, hr, h1, ih]

/-! ## Claim C2: atomic writes -/

/-- C2 counterexample: the feed document is not written with the claimed
temporary-file-then-rename discipline; the trace of export_for_chatgpt's
output step ends with a direct write to the canonical path and contains
no rename at all. -/
theorem C2_counterexample :
    ¬ spec_atomic_trace (export_output_ops "x") "docs/chatgpt_feed.json" := by
  rintro ⟨tmp, content, hne, hw, hlast⟩
  simp [export_output_ops, spec_atomic_trace, List.getLast?] at hlast

/-- C2 (amended): every output document of the Publisher (the feed JSON,
the combined report JSON, the markdown report, the HTML table page and
the updated index page) is written directly to its canonical path with a
single write call; no temporary location and no rename step exist in the
output traces. -/
theorem C2_direct_writes (feed rj rm tp ih : String) (b : Bool) :
    FsOp.write "docs/chatgpt_feed.json" feed ∈ export_output_ops feed ∧
    (export_output_ops feed).all (fun op => !op.isRename) = true ∧
    FsOp.write "docs/report.json" rj ∈ postprocess_output_ops rj rm tp ih b ∧
    (postprocess_output_ops rj rm tp ih b).all
      (fun op => !op.isRename) = true := by
  refine ⟨?_, ?_, ?_, ?_⟩ <;> cases b <;>
    simp [export_output_ops, postprocess_output_ops, FsOp.isRename]


/-! ## Claim C9: the Chart Selector -/

/-- C9: the Chart Selector fills each timeframe slot with the first file
matching that timeframe's compact pattern, omits absent combinations
without placeholder, and picks "best" as the first timeframe present in
the fixed priority order daily, weekly, monthly, hourly — independent of
the order in which files were discovered. In the spec's scenario the
mapping has daily and weekly URLs and best equals the daily URL, and a
listing that mentions hourly first still yields the daily URL as best. -/
theorem C9_chart_selector :
    (∀ files : List String,
      assocFind (choose_best_compact files) "daily" =
        (find_for files "daily").map abspath_for ∧
      assocFind (choose_best_compact files) "weekly" =
        (find_for files "weekly").map abspath_for ∧
      assocFind (choose_best_compact files) "monthly" =
        (find_for files "monthly").map abspath_for ∧
      assocFind (choose_best_compact files) "hourly" =
        (find_for files "hourly").map abspath_for ∧
      assocFind (choose_best_compact files) "best" =
        chartFrames.findSome?
          (fun fr => (find_for files fr).map abspath_for)) ∧
    choose_best_compact
        ["charts/GLD_daily_compact.png", "charts/GLD_weekly_compact.png"] =
      [("daily", abspath_for "charts/GLD_daily_compact.png"),
       ("weekly", abspath_for "charts/GLD_weekly_compact.png"),
       ("best", abspath_for "charts/GLD_daily_compact.png")] ∧
    assocFind (choose_best_compact
        ["charts/GLD_hourly_compact.png", "charts/GLD_daily_compact.png"])
      "best" = some (abspath_for "charts/GLD_daily_compact.png") := by
  refine ⟨?_, by decide, by decide⟩
  intro files
  cases h1 : find_for files "daily" <;> cases h2 : find_for files "weekly" <;>
    cases h3 : find_for files "monthly" <;>
    cases h4 : find_for files "hourly" <;>
    simp [choose_best_compact, chartFrames, assocFind, h1, h2, h3, h4,
      List.findSome?]


/-! ## Claims C3, C6, C7: the Schema Normalizer -/

theorem numLike_pyNumFn (v : PyVal) : numLikeB (pyNumFn v) = true := by
  cases v <;> rfl

theorem numFieldOk_of_eq {md : PyVal} {k : String} {v : PyVal}
    (h : pyLookup md k = some v) (h2 : numLikeB v = true) :
    numFieldOkB md k = true := by
  simp [numFieldOkB, h, h2]

theorem frameLiteralOk (c1 v1 v2 v3 v4 v5 c2 : PyVal) :
    frameFieldsNumericOk (.dict [("close_above_sma36", c1),
      ("dist_to_36MA", pyNumFn v1), ("rsi14", pyNumFn v2),
      ("macd", pyNumFn v3), ("macd_signal", pyNumFn v4),
      ("macd_hist", pyNumFn v5), ("macd_cross", c2)]) = true := by
  simp only [frameFieldsNumericOk, List.all_cons, List.all_nil,
    Bool.and_eq_true, Bool.and_true]
  refine ⟨?_, ?_, ?_, ?_, ?_⟩ <;>
    exact numFieldOk_of_eq rfl (numLike_pyNumFn _)

theorem optAll_bind {α β : Type} (p : β → Bool) (o : Option α)
    (f : α → Option β) (h : ∀ x, Option.all p (f x) = true) :
    Option.all p (o.bind f) = true := by
  cases o with
  | none => rfl
  | some x => exact h x

/-- C3 counterexample: on the spec's scenario catalog the canonical GLD
record has a null is_52w_high flag (nothing is recomputed from the raw
extreme, no tolerance band exists in the code) and a null daily
dist_to_36MA (nothing is derived from the frame's sma36), contradicting
the claimed true flag and the claimed populated distance of about
0.0117. -/
theorem C3_counterexample :
    (metrics_from_index idxGLD "GLD").bind
      (fun md => pyLookup md "is_52w_high") = some PyVal.none ∧
    (metrics_from_index idxGLD "GLD").bind (fun md =>
      (pyLookup md "frames").bind (fun fs =>
        (pyLookup fs "daily").bind
          (fun d => pyLookup d "dist_to_36MA"))) = some PyVal.none ∧
    (some PyVal.none : Option PyVal) ≠ some (PyVal.bool true) := by
  refine ⟨rfl, rfl, by simp⟩

/-- C3 (amended): the normalizer copies fields verbatim instead of
recomputing them: on the scenario catalog the canonical GLD record keeps
52w_high = 192.0 as given, while is_52w_high, the daily dist_to_36MA and
every other field the input did not provide come out null — in
particular `last` is null too, because the code reads it from the daily
frame rather than the asset level. -/
theorem C3_record_copied_verbatim :
    metrics_from_index idxGLD "GLD" = some (.dict [
      ("last", PyVal.none),
      ("is_52w_high", PyVal.none),
      ("is_52w_low", PyVal.none),
      ("52w_high", PyVal.float (.finite 192.0)),
      ("52w_low", PyVal.none),
      ("dist_to_36WMA", PyVal.none),
      ("dist_to_36MMA", PyVal.none),
      ("weekly_close_count_above_36WMA", PyVal.none),
      ("gdx_gld_ratio_vs_50dma", PyVal.none),
      ("sil_slv_ratio_vs_50dma", PyVal.none),
      ("vol20_up_ok", PyVal.none),
      ("frames", .dict [
        ("hourly", frameAllNull), ("daily", frameAllNull),
        ("weekly", frameAllNull), ("monthly", frameAllNull)])]) := rfl

/-- C6 counterexample: feeding the normalizer a catalog that uses the
alias "high52" instead of "52w_high" does not yield the same canonical
metrics: with the primary key the canonical 52w_high is 192.0, with the
alias it is null. -/
theorem C6_counterexample :
    (metrics_from_index idxPrimaryKey "GLD").bind
      (fun md => pyLookup md "52w_high") =
        some (PyVal.float (.finite 192.0)) ∧
    (metrics_from_index idxAliasKey "GLD").bind
      (fun md => pyLookup md "52w_high") = some PyVal.none ∧
    (some (PyVal.float (.finite 192.0)) : Option PyVal) ≠
      some PyVal.none := by
  refine ⟨rfl, rfl, by simp⟩

/-- C6 (amended): the normalizer reads each logical metric under exactly
one key name and supports no legacy aliases: adding a "high52" entry to
an asset object changes nothing in the canonical metrics (the alias is
ignored), and a catalog that only has the alias yields a null canonical
52w_high. -/
theorem C6_alias_ignored :
    (∀ (v : PyVal) (akvs : List (String × PyVal)),
      metrics_from_index (mkAssetIdx (("high52", v) :: akvs)) "GLD" =
        metrics_from_index (mkAssetIdx akvs) "GLD") ∧
    (metrics_from_index idxAliasKey "GLD").bind
      (fun md => pyLookup md "52w_high") = some PyVal.none := by
  refine ⟨?_, rfl⟩
  intro v akvs
  cases akvs with
  | nil =>
    simp [metrics_from_index, mkAssetIdx, pyGetPath, lookupKey, pyOr,
      truthy, asDict, dictGet0, List.find?]
  | cons p rest =>
    simp [metrics_from_index, mkAssetIdx, pyGetPath, lookupKey, pyOr,
      truthy, asDict, dictGet0, List.find?]

/-- C7 counterexample: non-finite numeric input is propagated, not
canonicalized to absent, and numeric strings are not coerced: a NaN
52-week high flows through `_num` into the canonical record as NaN, and
a string "192.0" becomes null rather than the number 192.0. -/
theorem C7_counterexample :
    (metrics_from_index idxNan "GLD").bind
      (fun md => pyLookup md "52w_high") =
        some (PyVal.float PyFloat.nan) ∧
    (some (PyVal.float PyFloat.nan) : Option PyVal) ≠ some PyVal.none ∧
    (metrics_from_index idxNumStr "GLD").bind
      (fun md => pyLookup md "52w_high") = some PyVal.none ∧
    (some PyVal.none : Option PyVal) ≠
      some (PyVal.float (.finite 192.0)) := by
  refine ⟨rfl, by simp, rfl, by simp⟩

/-- C7 (amended): every numeric metric field of a canonical record is a
Python number (bool included, possibly non-finite) or absent — never a
string or other malformed value; strings are dropped to absent rather
than coerced, and NaN is passed through rather than canonicalized. -/
theorem C7_numeric_or_absent :
    (∀ (idx : PyVal) (t : String),
      Option.all metricsNumericOk (metrics_from_index idx t) = true) ∧
    pyNumFn (.float .nan) = .float .nan ∧
    pyNumFn (.str "190.2") = PyVal.none := by
  refine ⟨?_, rfl, rfl⟩
  intro idx t
  apply optAll_bind; intro fkvs
  apply optAll_bind; intro akvs
  apply optAll_bind; intro dkvs
  apply optAll_bind; intro wkvs
  apply optAll_bind; intro mkvs
  apply optAll_bind; intro hkvs
  show metricsNumericOk _ = true
  simp only [metricsNumericOk, List.all_cons, List.all_nil,
    Bool.and_eq_true, Bool.and_true, and_true]
  constructor
  · refine ⟨?_, ?_, ?_, ?_, ?_, ?_⟩ <;>
      exact numFieldOk_of_eq rfl (numLike_pyNumFn _)
  · refine ⟨?_, ?_, ?_, ?_⟩ <;>
      exact frameLiteralOk _ _ _ _ _ _ _


/-! ## Claims C4, C8: news merging and deduplication -/

theorem dedupGo_countP (k : String × String × String) :
    ∀ (l : List NewsItem) (seen : List (String × String × String)),
      List.countP (fun it => decide (newsKey it = k)) (dedupGo seen l) =
        if k ∈ seen then 0
        else min 1 (List.countP (fun it => decide (newsKey it = k)) l) := by
  intro l
  induction l with
  | nil => intro seen; by_cases h : k ∈ seen <;> simp [dedupGo, h]
  | cons it rest ih =>
    intro seen
    by_cases hs : newsKey it ∈ seen
    · simp only [dedupGo, if_pos hs]
      rw [ih seen]
      by_cases hks : k ∈ seen
      · simp [hks]
      · have hne : ¬ (newsKey it = k) := fun h => hks (h ▸ hs)
        simp [hks, List.countP_cons, hne]
    · simp only [dedupGo, if_neg hs]
      by_cases hke : newsKey it = k
      · subst hke
        rw [List.countP_cons, ih (newsKey it :: seen), List.countP_cons]
        simp [hs, List.mem_cons_self]
      · have hkk : (k ∈ newsKey it :: seen) ↔ k ∈ seen := by
          constructor
          · intro h
            rcases List.mem_cons.mp h with h | h
            · exact absurd h.symm hke
            · exact h
          · exact fun h => List.mem_cons_of_mem _ h
        rw [List.countP_cons, ih (newsKey it :: seen)]
        by_cases hks : k ∈ seen
        · simp [hks, hkk, hke]
        · simp [hks, hkk, hke, List.countP_cons]

theorem dedupGo_find (k : String × String × String) :
    ∀ (l : List NewsItem) (seen : List (String × String × String)),
      k ∉ seen →
      (dedupGo seen l).find? (fun it => decide (newsKey it = k)) =
        l.find? (fun it => decide (newsKey it = k)) := by
  intro l
  induction l with
  | nil => intro seen _; rfl
  | cons it rest ih =>
    intro seen hk
    by_cases hs : newsKey it ∈ seen
    · have hne : ¬ (newsKey it = k) := fun h => hk (h ▸ hs)
      simp only [dedupGo, if_pos hs, List.find?]
      rw [ih seen hk]
      simp [hne]
    · simp only [dedupGo, if_neg hs, List.find?]
      by_cases hke : newsKey it = k
      · simp [hke]
      · rw [show decide (newsKey it = k) = false by simpa using hke]
        apply ih
        intro h
        rcases List.mem_cons.mp h with h | h
        · exact hke h.symm
        · exact hk h

theorem dedupGo_nodup :
    ∀ (l : List NewsItem) (seen : List (String × String × String)),
      ((dedupGo seen l).map newsKey).Nodup ∧
      ∀ k ∈ (dedupGo seen l).map newsKey, k ∉ seen := by
  intro l
  induction l with
  | nil => intro seen; simp [dedupGo]
  | cons it rest ih =>
    intro seen
    by_cases hs : newsKey it ∈ seen
    · simpa only [dedupGo, if_pos hs] using ih seen
    · simp only [dedupGo, if_neg hs, List.map_cons, List.nodup_cons]
      obtain ⟨hnd, hmem⟩ := ih (newsKey it :: seen)
      refine ⟨⟨?_, hnd⟩, ?_⟩
      · intro hm
        exact hmem _ hm (List.mem_cons_self _ _)
      · intro k hkm
        rcases List.mem_cons.mp hkm with h | h
        · exact h ▸ hs
        · intro hkseen
          exact hmem k h (List.mem_cons_of_mem _ hkseen)

/-- C4 counterexample: the merge performed by the fetch script does not
deduplicate at all: a freshly fetched item and a persisted item that
differ only in a tracking query parameter and the letter case of the
title (hence share one canonical identity) both survive the merge, so
the merged result does not contain exactly one canonical entry. -/
theorem C4_counterexample :
    newsKey freshTracked = newsKey persistedPlain ∧
    freshTracked ≠ persistedPlain ∧
    mergeNews [freshTracked] [persistedPlain] =
      [freshTracked, persistedPlain] := by
  refine ⟨by decide, by decide, ?_⟩
  simp [mergeNews, List.insertionSort, List.orderedInsert, newsSortRel,
    freshTracked, persistedPlain]

/-- C4 (amended): the fetch-script merge itself performs no
deduplication (see the counterexample); the dedup_news helper in
lib_net.py, which the merge never calls, does implement the claimed
behaviour: over fresh items listed before persisted ones it keeps
exactly one entry per canonical (normalized title, normalized URL,
timestamp) identity, namely the first occurrence, so a fresh item
supersedes a persisted duplicate. -/
theorem C4_dedup_first_wins (fresh existing : List NewsItem)
    (k : String × String × String) :
    List.countP (fun it => decide (newsKey it = k))
        (dedup_news (fresh ++ existing)) =
      min 1 (List.countP (fun it => decide (newsKey it = k))
        (fresh ++ existing)) ∧
    (dedup_news (fresh ++ existing)).find?
        (fun it => decide (newsKey it = k)) =
      (fresh ++ existing).find? (fun it => decide (newsKey it = k)) ∧
    ((dedup_news (fresh ++ existing)).map newsKey).Nodup := by
  refine ⟨?_, ?_, ?_⟩
  · simpa using dedupGo_countP k (fresh ++ existing) []
  · exact dedupGo_find k (fresh ++ existing) [] (by simp)
  · exact (dedupGo_nodup (fresh ++ existing) []).1

/-- C8 counterexample: the merge sorts by the raw published string in
descending order, so an item with an unparseable timestamp such as "zzz
not a date" sorts before (not after) an item with a parseable ISO
timestamp, contradicting the claimed placement of unparseable items
after all parseable ones. -/
theorem C8_counterexample :
    mergeNews [unparseableItem] [parseableItem] =
      [unparseableItem, parseableItem] ∧
    specParseableTs unparseableItem.published = false ∧
    specParseableTs parseableItem.published = true := by
  refine ⟨?_, by decide, by decide⟩
  simp only [mergeNews, List.insertionSort, List.orderedInsert]
  rw [if_pos ?_]
  · decide
  · show ("2026-01-01T00:00:00+00:00" : String) ≤ "zzz not a date"
    simp
    decide

/-- C8 (amended): merging any number of news items always yields at most
20 items, ordered descending by the raw published string (missing
timestamps sort as the empty string, i.e. last); no timestamp parsing
occurs, so unparseable strings are ordered by their literal value rather
than being pushed after parseable ones, and the items dropped by the
bound are those lowest in the string order. -/
theorem C8_bounded_and_sorted (posts existing : List NewsItem) :
    (mergeNews posts existing).length ≤ 20 ∧
    List.Sorted newsSortRel (mergeNews posts existing) := by
  constructor
  · exact List.length_take_le 20 _
  · exact List.Pairwise.sublist (List.take_sublist 20 _)
      (List.sorted_insertionSort newsSortRel (posts ++ existing))


/-! ## Claim C1: the Idempotent Publisher -/

theorem publishIter_succ (n : Nat) (p : List Char) :
    publishIter (n + 1) p = publishStep (publishIter n p) := by
  induction n generalizing p with
  | zero => rfl
  | succ m ih =>
    show publishIter (m + 1) (publishStep p) = _
    rw [ih (publishStep p)]
    rfl

theorem publishStep_slides (n : Nat) :
    publishStep (pageBodyPre ++ (List.replicate n '\n' ++
      (table_html [] ++ ('\n' :: (bodyCloseTag ++ pagePost))))) =
    pageBodyPre ++ (List.replicate (n + 1) '\n' ++
      (table_html [] ++ ('\n' :: (bodyCloseTag ++ pagePost)))) := by
  have hno1 : NoOccStart chartsStartMarker pageBodyPre
      (List.replicate n '\n' ++
        (table_html [] ++ ('\n' :: (bodyCloseTag ++ pagePost)))) :=
    noOccStart_of_safeChunk (by decide) _
  have hno2 : NoOccStart chartsStartMarker (List.replicate n '\n')
      (table_html [] ++ ('\n' :: (bodyCloseTag ++ pagePost))) :=
    noOccStart_replicate (by decide) (by decide) n _
  have hno3 : NoOccStart tableOpenMarker pageBodyPre
      (List.replicate n '\n' ++
        (table_html [] ++ ('\n' :: (bodyCloseTag ++ pagePost)))) :=
    noOccStart_of_safeChunk (by decide) _
  have hno4 : NoOccStart tableOpenMarker (List.replicate n '\n')
      (table_html [] ++ ('\n' :: (bodyCloseTag ++ pagePost))) :=
    noOccStart_replicate (by decide) (by decide) n _
  have hno5 : NoOccStart bodyCloseTag pageBodyPre
      (List.replicate n '\n' ++ ('\n' :: (bodyCloseTag ++ pagePost))) :=
    noOccStart_of_safeChunk (by decide) _
  have hno6 : NoOccStart bodyCloseTag (List.replicate n '\n')
      ('\n' :: (bodyCloseTag ++ pagePost)) :=
    noOccStart_replicate (by decide) (by decide) n _
  have hcharts : subLazy chartsStartMarker chartsEndMarker
      (chartsReplacement [])
      (table_html [] ++ ('\n' :: (bodyCloseTag ++ pagePost))) =
      table_html [] ++ ('\n' :: (bodyCloseTag ++ pagePost)) := by decide
  have htable : subLazy tableOpenMarker tableCloseTag []
      (table_html [] ++ ('\n' :: (bodyCloseTag ++ pagePost))) =
      '\n' :: (bodyCloseTag ++ pagePost) := by decide
  have hcontains : containsSub bodyCloseTag
      (pageBodyPre ++ (List.replicate n '\n' ++
        ('\n' :: (bodyCloseTag ++ pagePost)))) = true := by
    unfold containsSub
    rw [splitFirst_append_of_noOccStart hno5,
        splitFirst_append_of_noOccStart hno6,
        (show splitFirst bodyCloseTag ('\n' :: (bodyCloseTag ++ pagePost)) =
          some (['\n'], pagePost) by decide)]
    rfl
  have hrepl : replaceAll bodyCloseTag
      (table_html [] ++ '\n' :: bodyCloseTag)
      ('\n' :: (bodyCloseTag ++ pagePost)) =
      '\n' :: (table_html [] ++ ('\n' :: (bodyCloseTag ++ pagePost))) := by
    decide
  simp only [publishStep, update_index_html]
  rw [subLazy_append (by decide) hno1, subLazy_append (by decide) hno2,
    hcharts]
  rw [subLazy_append (by decide) hno3, subLazy_append (by decide) hno4,
    htable]
  rw [if_pos hcontains]
  rw [replaceAll_append (by decide) hno5, replaceAll_append (by decide) hno6,
    hrepl]
  simp [List.replicate_succ', List.append_assoc]

/-- C1 counterexample: publishing twice with identical input does not
reproduce the page obtained after one publication: the second run leaves
an extra newline in front of the closing body anchor, so the pages are
not identical. -/
theorem C1_counterexample :
    publishStep (publishStep page0) ≠ publishStep page0 := by decide

/-- C1 (amended): on a single-body page the publisher converges to
exactly one marker-identified table fragment — after any number N of
runs the page contains exactly one occurrence of the table's open
marker — but it is not idempotent in content: run N leaves N-1 extra
newlines before the closing body anchor (and when the CHARTS_LIST
sentinels are absent they are never established; only the table's own
identifying tag is). -/
theorem C1_publish_single_fragment (n : Nat) :
    publishIter (n + 1) page0 =
      pageBodyPre ++ (List.replicate n '\n' ++
        (table_html [] ++ ('\n' :: (bodyCloseTag ++ pagePost)))) ∧
    countSub tableOpenMarker (publishIter (n + 1) page0) = 1 := by
  have hform : ∀ m : Nat, publishIter (m + 1) page0 =
      pageBodyPre ++ (List.replicate m '\n' ++
        (table_html [] ++ ('\n' :: (bodyCloseTag ++ pagePost)))) := by
    intro m
    induction m with
    | zero =>
      show publishStep page0 = _
      decide
    | succ k ih =>
      rw [publishIter_succ (k + 1) page0, ih, publishStep_slides k]
  have hno3 : NoOccStart tableOpenMarker pageBodyPre
      (List.replicate n '\n' ++
        (table_html [] ++ ('\n' :: (bodyCloseTag ++ pagePost)))) :=
    noOccStart_of_safeChunk (by decide) _
  have hno4 : NoOccStart tableOpenMarker (List.replicate n '\n')
      (table_html [] ++ ('\n' :: (bodyCloseTag ++ pagePost))) :=
    noOccStart_replicate (by decide) (by decide) n _
  refine ⟨hform n, ?_⟩
  rw [hform n]
  rw [countSub_append (by decide) hno3, countSub_append (by decide) hno4]
  decide


/-! ## Claim C10: normalize_url idempotence -/

/-- C10 counterexample: normalize_url is not idempotent — on a URL whose
path ends in two slashes the first application removes only one of them,
and a second application changes the string again. -/
theorem C10_counterexample :
    normalize_url (normalize_url "https://a.com/b//") ≠
      normalize_url "https://a.com/b//" := by decide

theorem filter_replicate_keep {p : Char → Bool} {c : Char} (h : p c = true) :
    ∀ m : Nat, (List.replicate m c).filter p = List.replicate m c := by
  intro m
  induction m with
  | zero => rfl
  | succ j ih => simp [List.replicate_succ, List.filter_cons, h, ih]

theorem splitFirst_none_concrete_replicate {pat pre : List Char} {c : Char}
    (m : Nat) (hpat : pat ≠ []) (hsafe : safeChunk pat pre = true)
    (hne : pat.head? ≠ some c) :
    splitFirst pat (pre ++ List.replicate m c) = none := by
  rw [show pre ++ List.replicate m c = pre ++ (List.replicate m c ++ [])
    by simp]
  rw [splitFirst_safe_append hsafe, splitFirst_replicate hpat hne m [],
    splitFirst_nil hpat]
  rfl

theorem urlunsplit_slash_family (m : Nat) :
    urlunsplitF ⟨"https".toList, "a.com".toList,
      "/b".toList ++ List.replicate m '/', [], []⟩ =
      slashUrlBase ++ List.replicate m '/' := rfl

theorem urlsplit_core_step (m : Nat) :
    urlsplitCore (slashUrlBase ++ List.replicate m '/') =
      urlsplitAfterNetloc "https".toList "a.com".toList
        ("/b".toList ++ List.replicate m '/') := rfl

theorem urlsplit_slash_family (m : Nat) :
    urlsplitF (slashUrlBase ++ List.replicate m '/') =
      ⟨"https".toList, "a.com".toList,
        "/b".toList ++ List.replicate m '/', [], []⟩ := by
  have hfil : removeUnsafeF (slashUrlBase ++ List.replicate m '/') =
      slashUrlBase ++ List.replicate m '/' := by
    unfold removeUnsafeF
    rw [List.filter_append, filter_replicate_keep rfl]
    rfl
  have hfrag : splitFragmentF ("/b".toList ++ List.replicate m '/') =
      ("/b".toList ++ List.replicate m '/', []) := by
    unfold splitFragmentF
    rw [splitFirst_none_concrete_replicate m (by decide) (by decide)
      (by decide)]
  have hq : splitQueryF ("/b".toList ++ List.replicate m '/') =
      ("/b".toList ++ List.replicate m '/', []) := by
    unfold splitQueryF
    rw [splitFirst_none_concrete_replicate m (by decide) (by decide)
      (by decide)]
  calc urlsplitF (slashUrlBase ++ List.replicate m '/')
      = urlsplitCore (slashUrlBase ++ List.replicate m '/') := by
        unfold urlsplitF; rw [hfil]
    _ = urlsplitAfterNetloc "https".toList "a.com".toList
          ("/b".toList ++ List.replicate m '/') := urlsplit_core_step m
    _ = ⟨"https".toList, "a.com".toList,
          "/b".toList ++ List.replicate m '/', [], []⟩ := by
        unfold urlsplitAfterNetloc
        rw [hfrag]
        dsimp only
        rw [hq]

theorem getLast?_append_replicate_succ (pre : List Char) (c : Char)
    (k : Nat) :
    (pre ++ List.replicate (k + 1) c).getLast? = some c := by
  rw [List.replicate_succ', ← List.append_assoc, List.getLast?_concat]

theorem dropLast_append_replicate_succ (pre : List Char) (c : Char)
    (k : Nat) :
    (pre ++ List.replicate (k + 1) c).dropLast =
      pre ++ List.replicate k c := by
  rw [List.replicate_succ', ← List.append_assoc, List.dropLast_concat]

theorem pyStrip_eq_self {s : List Char}
    (h1 : ∀ c, s.head? = some c → pyIsSpace c = false)
    (h2 : ∀ c, s.getLast? = some c → pyIsSpace c = false) :
    pyStrip s = s := by
  unfold pyStrip
  have hd : s.dropWhile pyIsSpace = s := by
    cases s with
    | nil => rfl
    | cons c l => simp [List.dropWhile_cons, h1 c rfl]
  rw [hd]
  have hrev : s.reverse.dropWhile pyIsSpace = s.reverse := by
    cases hr : s.reverse with
    | nil => rfl
    | cons c l =>
      have hcl : s.getLast? = some c := by
        rw [← List.head?_reverse, hr]
        rfl
      simp [List.dropWhile_cons, h2 c hcl]
  rw [hrev, List.reverse_reverse]

theorem pyStrip_slash_family (k : Nat) :
    pyStrip (slashUrlBase ++ List.replicate (k + 1) '/') =
      slashUrlBase ++ List.replicate (k + 1) '/' := by
  apply pyStrip_eq_self
  · intro c hc
    have hc2 : some 'h' = some c := hc
    rw [← Option.some.inj hc2]
    rfl
  · intro c hc
    have hl : (slashUrlBase ++ List.replicate (k + 1) '/').getLast? =
        some '/' := getLast?_append_replicate_succ slashUrlBase '/' k
    rw [hl] at hc
    rw [← Option.some.inj hc]
    rfl

theorem strip_tracking_slash_family (m : Nat) :
    strip_tracking (slashUrlBase ++ List.replicate m '/') =
      slashUrlBase ++ List.replicate m '/' := by
  unfold strip_tracking
  rw [urlsplit_slash_family m]
  exact urlunsplit_slash_family m

theorem replaceAll_none {pat repl s : List Char} (hpat : pat ≠ [])
    (h : splitFirst pat s = none) : replaceAll pat repl s = s := by
  rw [replaceAll_eq hpat, h]

theorem replaceAll_http_slash_family (m : Nat) :
    replaceAll "http://".toList "https://".toList
      (slashUrlBase ++ List.replicate m '/') =
      slashUrlBase ++ List.replicate m '/' :=
  replaceAll_none (by decide)
    (splitFirst_none_concrete_replicate m (by decide) (by decide)
      (by decide))

/-- C10 (amended): URL canonicalization is not idempotent: the
trailing-slash rule strips exactly one slash per application, so for
every k, normalizing the https URL whose path ends in k+2 slashes yields
the same URL with k+1 slashes — a further application keeps shortening
it instead of changing nothing. -/
theorem C10_one_slash_per_pass (k : Nat) :
    normalize_urlL (slashUrlBase ++ List.replicate (k + 2) '/') =
      slashUrlBase ++ List.replicate (k + 1) '/' := by
  have hstrip : pyStrip (slashUrlBase ++ List.replicate (k + 2) '/') =
      slashUrlBase ++ List.replicate (k + 2) '/' :=
    pyStrip_slash_family (k + 1)
  have htrack := strip_tracking_slash_family (k + 2)
  have hhttp := replaceAll_http_slash_family (k + 2)
  have hsplit := urlsplit_slash_family (k + 2)
  have hne : ("/b".toList ++ List.replicate (k + 2) '/') ≠ ['/'] := by
    intro h
    have hlen := congrArg List.length h
    rw [List.length_append, List.length_replicate] at hlen
    have hlen2 : 2 + (k + 2) = 1 := hlen
    omega
  have hlast : ("/b".toList ++ List.replicate (k + 2) '/').getLast? =
      some '/' := getLast?_append_replicate_succ "/b".toList '/' (k + 1)
  have hdl : ("/b".toList ++ List.replicate (k + 2) '/').dropLast =
      "/b".toList ++ List.replicate (k + 1) '/' :=
    dropLast_append_replicate_succ "/b".toList '/' (k + 1)
  unfold normalize_urlL
  dsimp only
  rw [hstrip, htrack, hhttp, hsplit]
  dsimp only
  rw [if_pos (And.intro hne hlast), hdl]
  exact urlunsplit_slash_family (k + 1)
end MDR
